import Mathlib

/-!
Verification of the world-chunk lifecycle manager (`pumpkin-world/src/level.rs`).

The Rust code is shallowly embedded: the concurrent maps (`DashMap`) become
association lists with atomic per-key operations, shared `Arc<RwLock<ChunkData>>`
handles become values carrying a numeric identity (`id`, modelling pointer
identity of the `Arc`), async channels become accumulated output lists, and the
stateful methods of `Level` become pure state-passing functions.  Per-entry
atomicity of `DashMap` (the `entry` lock) lets each map operation be modelled
as a single atomic step of a transition system.
-/

namespace Pumpkin

/-- Chunk coordinate: `Vector2<i32>` from `pumpkin_util::math::vector2`.
Only equality and hashing of coordinates are used by `level.rs`. -/
structure Vector2 where
  x : Int
  z : Int
deriving DecidableEq, Repr

/-- Block position: `BlockPos` from `pumpkin_util::math::position`.
`level.rs` uses it only for equality and for deriving the owning chunk. -/
structure BlockPos where
  x : Int
  y : Int
  z : Int
deriving DecidableEq, Repr

/-- Scheduled tick (`ScheduledTick` in `pumpkin-world/src/chunk`): a deferred
block effect.  `delay` is a `u16` (natural, decremented with saturating
subtraction), `priority` is modelled from the spec as a natural number
("lower numeric priority value processed first"), `target_block_id` is a `u16`. -/
structure ScheduledTick where
  block_pos : BlockPos
  delay : Nat
  priority : Nat
  target_block_id : Nat
deriving DecidableEq, Repr

/-- Modelled from the spec: the owning-chunk derivation
`BlockPos::chunk_and_chunk_relative_position` (its first component), which lives
in `pumpkin_util` outside the excerpt.  The spec only states that "a tick's
owning chunk is always derivable from its block position", so the theorems are
parametrised over an arbitrary derivation function; this concrete one
(floor-division by the 16-block chunk width) instantiates witnesses. -/
def chunkOfBlockPos (p : BlockPos) : Vector2 :=
  ⟨Int.fdiv p.x 16, Int.fdiv p.z 16⟩

/-- Shared chunk handle: `SyncChunk = Arc<RwLock<ChunkData>>`.  The `id` field
models the pointer identity of the `Arc` (two clones of one `Arc` share the
`id`; a fresh `Arc::new` gets a fresh `id`).  Of `ChunkData` the code under
verification touches the `position` field and the `block_ticks` list. -/
structure SyncChunk where
  id : Nat
  position : Vector2
  block_ticks : List ScheduledTick
deriving DecidableEq, Repr

/-! ### Association-list model of `DashMap`

`alookup`, `aupdate` (insert-or-replace, as `DashMap::insert` /
`Entry::or_insert`) and `aerase` (`remove`) model the per-key atomic
operations.  Each is one atomic step. -/

/-- Lookup in the association-list map (`DashMap::get`). -/
def alookup {α : Type} (k : Vector2) : List (Vector2 × α) → Option α
  | [] => none
  | (k2, v) :: rest => if k2 = k then some v else alookup k rest

/-- Insert-or-replace (`DashMap::insert`, `Entry::or_insert` writing path). -/
def aupdate {α : Type} (k : Vector2) (v : α) : List (Vector2 × α) → List (Vector2 × α)
  | [] => [(k, v)]
  | (k2, v2) :: rest => if k2 = k then (k, v) :: rest else (k2, v2) :: aupdate k v rest

/-- Removal (`DashMap::remove`, `OccupiedEntry::remove_entry`). -/
def aerase {α : Type} (k : Vector2) : List (Vector2 × α) → List (Vector2 × α)
  | [] => []
  | (k2, v) :: rest => if k2 = k then aerase k rest else (k2, v) :: aerase k rest

theorem alookup_aupdate_self {α : Type} (k : Vector2) (v : α) (m : List (Vector2 × α)) :
    alookup k (aupdate k v m) = some v := by
  induction m with
  | nil => simp [aupdate, alookup]
  | cons hd tl ih =>
    obtain ⟨k2, v2⟩ := hd
    by_cases h : k2 = k
    · simp [aupdate, alookup, h]
    · simp [aupdate, alookup, h, ih]

theorem alookup_aupdate_other {α : Type} {k k2 : Vector2} (v : α) (m : List (Vector2 × α))
    (h : k2 ≠ k) : alookup k (aupdate k2 v m) = alookup k m := by
  induction m with
  | nil => simp [aupdate, alookup, h]
  | cons hd tl ih =>
    obtain ⟨k3, v3⟩ := hd
    by_cases h3 : k3 = k2
    · subst h3
      simp [aupdate, alookup, h]
    · by_cases h4 : k3 = k
      · simp [aupdate, alookup, h3, h4, Ne.symm h]
      · simp [aupdate, alookup, h3, h4, ih]

theorem alookup_aerase_self {α : Type} (k : Vector2) (m : List (Vector2 × α)) :
    alookup k (aerase k m) = none := by
  induction m with
  | nil => simp [aerase, alookup]
  | cons hd tl ih =>
    obtain ⟨k2, v⟩ := hd
    by_cases h : k2 = k
    · simp [aerase, h, ih]
    · simp [aerase, alookup, h, ih]

theorem alookup_aerase_other {α : Type} {k k2 : Vector2} (m : List (Vector2 × α))
    (h : k2 ≠ k) : alookup k (aerase k2 m) = alookup k m := by
  induction m with
  | nil => simp [aerase]
  | cons hd tl ih =>
    obtain ⟨k3, v⟩ := hd
    by_cases h3 : k3 = k2
    · subst h3
      simp [aerase, alookup, h, Ne.symm h]
      exact ih
    · by_cases h4 : k3 = k
      · simp [aerase, alookup, h3, h4, Ne.symm h]
      · simp [aerase, alookup, h3, h4, ih]

/-! ### Scheduled-tick queue (`block_ticks` field and its methods) -/

/-- One step of the drain loop of `get_and_tick_block_ticks`: each tick's delay
is decremented with `saturating_sub(1)`; ticks whose delay reached zero go to
the due list, the others to the remaining list (both in collection order). -/
def drainTicks : List ScheduledTick → List ScheduledTick × List ScheduledTick
  | [] => ([], [])
  | t :: rest =>
    let t2 := { t with delay := t.delay - 1 }
    let (due, remaining) := drainTicks rest
    if t2.delay = 0 then (t2 :: due, remaining) else (due, t2 :: remaining)

/-- Comparison used by `ticks.sort_by_key(|tick| tick.priority)`: ascending
numeric priority. -/
def tickLE (a b : ScheduledTick) : Bool := a.priority ≤ b.priority

/-- `Level::get_and_tick_block_ticks`: drain the collection once, keep the
not-yet-due ticks as the new collection, and return the due ticks sorted by
priority with a stable sort (Rust's `sort_by_key`). -/
def get_and_tick_block_ticks (l : List ScheduledTick) :
    List ScheduledTick × List ScheduledTick :=
  let (ticks, remaining) := drainTicks l
  (ticks.mergeSort tickLE, remaining)

/-- `Level::schedule_block_tick`: push a new tick onto the global collection. -/
def schedule_block_tick (l : List ScheduledTick) (block_id : Nat) (block_pos : BlockPos)
    (delay : Nat) (priority : Nat) : List ScheduledTick :=
  l ++ [⟨block_pos, delay, priority, block_id⟩]

/-- `Level::is_block_tick_scheduled`: linear scan for a matching position and
target block id. -/
def is_block_tick_scheduled (l : List ScheduledTick) (block_pos : BlockPos)
    (block_id : Nat) : Bool :=
  l.any fun tick => decide (tick.block_pos = block_pos ∧ tick.target_block_id = block_id)

/-- State of the global tick collection after `n` calls of
`get_and_tick_block_ticks`. -/
def stateAfterCalls : Nat → List ScheduledTick → List ScheduledTick
  | 0, l => l
  | n + 1, l => stateAfterCalls n (get_and_tick_block_ticks l).2

/-- Due ticks returned by call number `n` (1-indexed; `outputOfCall 0` is the
empty list, no call having happened). -/
def outputOfCall : Nat → List ScheduledTick → List ScheduledTick
  | 0, _ => []
  | 1, l => (get_and_tick_block_ticks l).1
  | n + 2, l => outputOfCall (n + 1) (get_and_tick_block_ticks l).2

theorem drainTicks_cons (t : ScheduledTick) (rest : List ScheduledTick) :
    drainTicks (t :: rest) =
      (if t.delay - 1 = 0
       then ({ t with delay := t.delay - 1 } :: (drainTicks rest).1, (drainTicks rest).2)
       else ((drainTicks rest).1, { t with delay := t.delay - 1 } :: (drainTicks rest).2)) := by
  simp only [drainTicks]

theorem drainTicks_fst (l : List ScheduledTick) :
    (drainTicks l).1 =
      (l.filter fun t => decide (max t.delay 1 = 1)).map fun t => { t with delay := 0 } := by
  induction l with
  | nil => rfl
  | cons t rest ih =>
    rw [drainTicks_cons, List.filter_cons]
    by_cases h : t.delay - 1 = 0
    · rw [if_pos h, if_pos (by simp only [decide_eq_true_eq]; omega)]
      show ({ t with delay := t.delay - 1 } : ScheduledTick) :: (drainTicks rest).1 = _
      rw [List.map_cons, ih, h]
    · rw [if_neg h, if_neg (by simp only [decide_eq_true_eq]; omega)]
      exact ih

theorem drainTicks_snd (l : List ScheduledTick) :
    (drainTicks l).2 =
      (l.filter fun t => decide (1 < max t.delay 1)).map fun t => { t with delay := t.delay - 1 } := by
  induction l with
  | nil => rfl
  | cons t rest ih =>
    rw [drainTicks_cons, List.filter_cons]
    by_cases h : t.delay - 1 = 0
    · rw [if_pos h, if_neg (by simp only [decide_eq_true_eq]; omega)]
      exact ih
    · rw [if_neg h, if_pos (by simp only [decide_eq_true_eq]; omega)]
      show ({ t with delay := t.delay - 1 } : ScheduledTick) :: (drainTicks rest).2 = _
      rw [List.map_cons, ih]

theorem stateAfterCalls_eq (n : Nat) (l : List ScheduledTick) :
    stateAfterCalls n l =
      (l.filter fun t => decide (n < max t.delay 1)).map fun t => { t with delay := t.delay - n } := by
  induction n generalizing l with
  | zero =>
    show l = _
    rw [List.filter_eq_self.mpr (by intro t _; simp only [decide_eq_true_eq]; omega)]
    simp
  | succ n ih =>
    show stateAfterCalls n (get_and_tick_block_ticks l).2 = _
    have hsnd : (get_and_tick_block_ticks l).2 = (drainTicks l).2 := rfl
    rw [ih, hsnd, drainTicks_snd, List.filter_map, List.map_map]
    have hmap : ((fun t : ScheduledTick => { t with delay := t.delay - n }) ∘
        fun t : ScheduledTick => { t with delay := t.delay - 1 }) =
        fun t : ScheduledTick => { t with delay := t.delay - (n + 1) } := by
      funext t
      simp only [Function.comp_apply]
      congr 1
      omega
    rw [hmap, List.filter_filter]
    congr 1
    apply List.filter_congr
    intro t _
    simp only [Function.comp_apply]
    rw [← Bool.decide_and, decide_eq_decide]
    omega

theorem tickLE_trans (a b c : ScheduledTick) :
    tickLE a b = true → tickLE b c = true → tickLE a c = true := by
  simp only [tickLE, decide_eq_true_eq]
  omega

theorem tickLE_total (a b : ScheduledTick) : (tickLE a b || tickLE b a) = true := by
  simp only [tickLE, Bool.or_eq_true, decide_eq_true_eq]
  omega

theorem filter_swap {α : Type} (p q : α → Bool) (l : List α) :
    (l.filter p).filter q = (l.filter q).filter p := by
  rw [List.filter_filter, List.filter_filter]
  apply List.filter_congr
  intro a _
  rw [Bool.and_comm]

/-- Stability of the sort in `get_and_tick_block_ticks`: ticks of one fixed
priority come out of the stable sort in their original relative order, hence
filtering the sorted list by a priority equals filtering the unsorted list. -/
theorem mergeSort_filter_priority (m : List ScheduledTick) (p : Nat) :
    (m.mergeSort tickLE).filter (fun u => decide (u.priority = p)) =
      m.filter (fun u => decide (u.priority = p)) := by
  have hself : (m.filter (fun u => decide (u.priority = p))).filter
      (fun u => decide (u.priority = p)) = m.filter (fun u => decide (u.priority = p)) := by
    rw [List.filter_filter]
    apply List.filter_congr
    intro a _
    rw [Bool.and_self]
  have hsub : (m.filter (fun u => decide (u.priority = p))).Sublist (m.mergeSort tickLE) := by
    apply List.sublist_mergeSort tickLE_trans tickLE_total
    · apply List.pairwise_of_forall_mem_list
      intro a ha b hb
      simp only [List.mem_filter, decide_eq_true_eq] at ha hb
      simp [tickLE, ha.2, hb.2]
    · exact List.filter_sublist m
  have hsub2 := hsub.filter (fun u => decide (u.priority = p))
  rw [hself] at hsub2
  have hperm : ((m.mergeSort tickLE).filter (fun u => decide (u.priority = p))).Perm
      (m.filter (fun u => decide (u.priority = p))) :=
    (List.mergeSort_perm m tickLE).filter _
  exact (hsub2.eq_of_length hperm.length_eq.symm).symm

theorem outputOfCall_eq (n : Nat) (l : List ScheduledTick) :
    outputOfCall (n + 1) l =
      ((l.filter fun t => decide (max t.delay 1 = n + 1)).map fun t =>
        { t with delay := 0 }).mergeSort tickLE := by
  induction n generalizing l with
  | zero =>
    show (get_and_tick_block_ticks l).1 = _
    have hfst : (get_and_tick_block_ticks l).1 = ((drainTicks l).1).mergeSort tickLE := rfl
    rw [hfst, drainTicks_fst]
  | succ n ih =>
    show outputOfCall (n + 1) (get_and_tick_block_ticks l).2 = _
    have hsnd : (get_and_tick_block_ticks l).2 = (drainTicks l).2 := rfl
    rw [ih, hsnd, drainTicks_snd, List.filter_map, List.map_map]
    have hmap : ((fun t : ScheduledTick => { t with delay := 0 }) ∘
        fun t : ScheduledTick => { t with delay := t.delay - 1 }) =
        fun t : ScheduledTick => { t with delay := 0 } := by
      funext t
      rfl
    rw [hmap, List.filter_filter]
    congr 2
    apply List.filter_congr
    intro t _
    simp only [Function.comp_apply]
    rw [← Bool.decide_and, decide_eq_decide]
    omega

/-- C7: a tick scheduled with delay `d` has its remaining delay decremented by
one (saturating at zero) on each call of `get_and_tick_block_ticks`, is
returned exactly once, on call number `d` (`max d 1`: a tick with delay 0 is
returned on the very next call), and each call's due list is sorted by
priority ascending with ties between equal priorities kept in insertion order
(stable sort).  Conjunct 1 characterises the collection after `n` calls (each
surviving tick's delay is the original minus `n`), conjunct 2 gives the
exactly-once delivery on call `max d 1`, conjunct 3 sortedness, conjunct 4
stability. -/
theorem c7_advance_and_collect_due
    (l : List ScheduledTick) (t : ScheduledTick)
    (huniq : (l.filter fun u =>
        decide (u.block_pos = t.block_pos ∧ u.target_block_id = t.target_block_id)) = [t]) :
    (∀ n, stateAfterCalls n l =
      (l.filter fun u => decide (n < max u.delay 1)).map fun u => { u with delay := u.delay - n })
    ∧ (∀ n, ((outputOfCall n l).filter fun u =>
        decide (u.block_pos = t.block_pos ∧ u.target_block_id = t.target_block_id)) =
        if n = max t.delay 1 then [{ t with delay := 0 }] else [])
    ∧ (∀ n, (outputOfCall n l).Pairwise fun a b => a.priority ≤ b.priority)
    ∧ (∀ n p, ((outputOfCall (n + 1) l).filter fun u => decide (u.priority = p)) =
        (((l.filter fun u => decide (max u.delay 1 = n + 1)).map fun u =>
          { u with delay := 0 }).filter fun u => decide (u.priority = p))) := by
  refine ⟨fun n => stateAfterCalls_eq n l, fun n => ?_, fun n => ?_, fun n p => ?_⟩
  · match n with
    | 0 =>
      have : (0 : Nat) ≠ max t.delay 1 := by omega
      simp [outputOfCall, this]
    | k + 1 =>
      rw [outputOfCall_eq]
      have hperm : (((((l.filter fun u => decide (max u.delay 1 = k + 1)).map fun u =>
          { u with delay := 0 }).mergeSort tickLE).filter fun u =>
          decide (u.block_pos = t.block_pos ∧ u.target_block_id = t.target_block_id))).Perm
          (((l.filter fun u => decide (max u.delay 1 = k + 1)).map fun u =>
          { u with delay := 0 }).filter fun u =>
          decide (u.block_pos = t.block_pos ∧ u.target_block_id = t.target_block_id)) :=
        (List.mergeSort_perm _ tickLE).filter _
      have hcomp : ((fun u : ScheduledTick =>
          decide (u.block_pos = t.block_pos ∧ u.target_block_id = t.target_block_id)) ∘
          fun u : ScheduledTick => { u with delay := 0 }) =
          fun u : ScheduledTick =>
          decide (u.block_pos = t.block_pos ∧ u.target_block_id = t.target_block_id) := by
        funext u
        rfl
      rw [List.filter_map, hcomp, filter_swap, huniq] at hperm
      by_cases hk : k + 1 = max t.delay 1
      · rw [if_pos hk]
        have : ([t].filter fun u => decide (max u.delay 1 = k + 1)) = [t] := by
          simp [hk.symm]
        rw [this] at hperm
        exact List.perm_singleton.mp (by simpa using hperm)
      · rw [if_neg hk]
        have : ([t].filter fun u => decide (max u.delay 1 = k + 1)) = [] := by
          simp
          omega
        rw [this] at hperm
        exact List.perm_nil.mp (by simpa using hperm)
  · match n with
    | 0 => exact List.Pairwise.nil
    | k + 1 =>
      rw [outputOfCall_eq]
      refine (List.sorted_mergeSort tickLE_trans tickLE_total _).imp ?_
      intro a b hab
      simpa [tickLE] using hab
  · rw [outputOfCall_eq, mergeSort_filter_priority]

/-- Concrete tick used by the C7 witness. -/
def c7tick : ScheduledTick := ⟨⟨0, 0, 0⟩, 2, 5, 7⟩

/-- Witness for C7 at a concrete input: a single tick of delay 2 is delivered
on call number 2 = `max 2 1`. -/
theorem c7_witness :
    ((outputOfCall 2 [c7tick]).filter fun u =>
      decide (u.block_pos = c7tick.block_pos ∧ u.target_block_id = c7tick.target_block_id)) =
      if 2 = max c7tick.delay 1 then [{ c7tick with delay := 0 }] else [] :=
  (c7_advance_and_collect_due [c7tick] c7tick (by decide)).2.1 2

/-! ### Watcher table (`chunk_watchers : DashMap<Vector2<i32>, usize>`) -/

/-- Largest `usize` value (64-bit target): the bound `checked_add` respects. -/
def usizeMax : Nat := 2 ^ 64 - 1

/-- One iteration of the loop of `mark_chunks_as_newly_watched`: occupied
entries get `checked_add(1)` (overflow is logged and the increment becomes a
no-op), vacant entries are inserted at 1. -/
def mark_chunk_newly_watched (w : List (Vector2 × Nat)) (c : Vector2) :
    List (Vector2 × Nat) :=
  match alookup c w with
  | some v => if v + 1 ≤ usizeMax then aupdate c (v + 1) w else w
  | none => aupdate c 1 w

/-- `Level::mark_chunks_as_newly_watched`: the loop over the given chunks. -/
def mark_chunks_as_newly_watched (w : List (Vector2 × Nat)) :
    List Vector2 → List (Vector2 × Nat)
  | [] => w
  | c :: cs => mark_chunks_as_newly_watched (mark_chunk_newly_watched w c) cs

/-- `Level::mark_chunks_as_not_watched`: for each chunk, an occupied entry's
count is decremented with `saturating_sub(1)`; a count that reached zero
removes the entry and pushes the coordinate onto the returned cleanup list;
a vacant entry is a no-op.  Returns the final table and the coordinates to
clean, in iteration order. -/
def mark_chunks_as_not_watched (w : List (Vector2 × Nat)) :
    List Vector2 → List (Vector2 × Nat) × List Vector2
  | [] => (w, [])
  | c :: cs =>
    match alookup c w with
    | some v =>
      if v - 1 = 0 then
        let r := mark_chunks_as_not_watched (aerase c w) cs
        (r.1, c :: r.2)
      else
        mark_chunks_as_not_watched (aupdate c (v - 1) w) cs
    | none => mark_chunks_as_not_watched w cs

/-- A coordinate whose watcher count would reach zero on one decrement: the
entry exists and holds a count of at most 1 (saturating subtraction). -/
def reachesZero (w : List (Vector2 × Nat)) (c : Vector2) : Bool :=
  match alookup c w with
  | some v => decide (v ≤ 1)
  | none => false

theorem mark_chunks_as_not_watched_ret (w : List (Vector2 × Nat)) (cs : List Vector2)
    (hnd : cs.Nodup) :
    (mark_chunks_as_not_watched w cs).2 = cs.filter (reachesZero w) := by
  induction cs generalizing w with
  | nil => rfl
  | cons c cs ih =>
    have hnotmem : c ∉ cs := (List.nodup_cons.mp hnd).1
    have hnd2 : cs.Nodup := (List.nodup_cons.mp hnd).2
    rw [List.filter_cons]
    match hl : alookup c w with
    | some v =>
      by_cases hv : v - 1 = 0
      · have hc : reachesZero w c = true := by
          simp only [reachesZero, hl, decide_eq_true_eq]
          omega
        rw [if_pos hc]
        simp only [mark_chunks_as_not_watched, hl, if_pos hv]
        congr 1
        rw [ih _ hnd2]
        apply List.filter_congr
        intro x hx
        have hxc : x ≠ c := fun h => hnotmem (h ▸ hx)
        simp only [reachesZero, alookup_aerase_other w hxc.symm]
      · have hc : ¬ reachesZero w c = true := by
          simp only [reachesZero, hl, decide_eq_true_eq]
          omega
        rw [if_neg hc]
        simp only [mark_chunks_as_not_watched, hl, if_neg hv]
        rw [ih _ hnd2]
        apply List.filter_congr
        intro x hx
        have hxc : x ≠ c := fun h => hnotmem (h ▸ hx)
        simp only [reachesZero, alookup_aupdate_other _ w hxc.symm]
    | none =>
      have hc : ¬ reachesZero w c = true := by
        simp only [reachesZero, hl]
        exact Bool.false_ne_true
      rw [if_neg hc]
      simp only [mark_chunks_as_not_watched, hl]
      exact ih w hnd2

/-- The watcher-table entry a coordinate retains after one saturating
decrement: a count that reached zero removes the entry. -/
def decrementedEntry (w : List (Vector2 × Nat)) (c : Vector2) : Option Nat :=
  match alookup c w with
  | some v => if v - 1 = 0 then none else some (v - 1)
  | none => none

theorem mark_chunks_as_not_watched_lookup (w : List (Vector2 × Nat)) (cs : List Vector2)
    (hnd : cs.Nodup) (c : Vector2) :
    alookup c (mark_chunks_as_not_watched w cs).1 =
      if c ∈ cs then decrementedEntry w c else alookup c w := by
  induction cs generalizing w with
  | nil => simp [mark_chunks_as_not_watched]
  | cons c2 cs ih =>
    have hnotmem : c2 ∉ cs := (List.nodup_cons.mp hnd).1
    have hnd2 : cs.Nodup := (List.nodup_cons.mp hnd).2
    match hl : alookup c2 w with
    | some v =>
      by_cases hv : v - 1 = 0
      · simp only [mark_chunks_as_not_watched, hl, if_pos hv]
        rw [ih _ hnd2]
        by_cases hcc : c = c2
        · subst hcc
          rw [if_neg hnotmem, if_pos (List.mem_cons_self c cs), alookup_aerase_self]
          simp only [decrementedEntry, hl, if_pos hv]
        · have h1 : alookup c (aerase c2 w) = alookup c w :=
            alookup_aerase_other w (fun h => hcc h.symm)
          have h2 : decrementedEntry (aerase c2 w) c = decrementedEntry w c := by
            simp only [decrementedEntry, h1]
          rw [h1, h2]
          by_cases hcs : c ∈ cs
          · rw [if_pos hcs, if_pos (List.mem_cons_of_mem _ hcs)]
          · rw [if_neg hcs, if_neg (by simp [List.mem_cons, hcc, hcs])]
      · simp only [mark_chunks_as_not_watched, hl, if_neg hv]
        rw [ih _ hnd2]
        by_cases hcc : c = c2
        · subst hcc
          rw [if_neg hnotmem, if_pos (List.mem_cons_self c cs), alookup_aupdate_self]
          simp only [decrementedEntry, hl, if_neg hv]
        · have h1 : alookup c (aupdate c2 (v - 1) w) = alookup c w :=
            alookup_aupdate_other _ w (fun h => hcc h.symm)
          have h2 : decrementedEntry (aupdate c2 (v - 1) w) c = decrementedEntry w c := by
            simp only [decrementedEntry, h1]
          rw [h1, h2]
          by_cases hcs : c ∈ cs
          · rw [if_pos hcs, if_pos (List.mem_cons_of_mem _ hcs)]
          · rw [if_neg hcs, if_neg (by simp [List.mem_cons, hcc, hcs])]
    | none =>
      simp only [mark_chunks_as_not_watched, hl]
      rw [ih _ hnd2]
      by_cases hcc : c = c2
      · subst hcc
        rw [if_neg hnotmem, if_pos (List.mem_cons_self c cs), hl]
        simp only [decrementedEntry, hl]
      · by_cases hcs : c ∈ cs
        · rw [if_pos hcs, if_pos (List.mem_cons_of_mem _ hcs)]
        · rw [if_neg hcs, if_neg (by simp [List.mem_cons, hcc, hcs])]

/-- C8: `mark_chunks_as_not_watched` (the spec's `stop_watching`) decrements
each given coordinate's watcher count saturating at zero, returns exactly the
subset of input coordinates whose count reached zero (in input order), removes
those entries from the table, and treats a coordinate with no entry as a
no-op: its table state is unchanged and it is not returned. -/
theorem c8_stop_watching (w : List (Vector2 × Nat)) (cs : List Vector2) (hnd : cs.Nodup) :
    (mark_chunks_as_not_watched w cs).2 = cs.filter (reachesZero w)
    ∧ (∀ c, alookup c (mark_chunks_as_not_watched w cs).1 =
        if c ∈ cs then decrementedEntry w c else alookup c w)
    ∧ (∀ c ∈ cs, alookup c w = none →
        alookup c (mark_chunks_as_not_watched w cs).1 = none ∧
          c ∉ (mark_chunks_as_not_watched w cs).2) := by
  refine ⟨mark_chunks_as_not_watched_ret w cs hnd,
    fun c => mark_chunks_as_not_watched_lookup w cs hnd c, fun c hc hl => ?_⟩
  constructor
  · rw [mark_chunks_as_not_watched_lookup w cs hnd c, if_pos hc]
    simp only [decrementedEntry, hl]
  · rw [mark_chunks_as_not_watched_ret w cs hnd]
    intro hmem
    have := (List.mem_filter.mp hmem).2
    simp only [reachesZero, hl] at this
    exact Bool.false_ne_true this

/-- Concrete watcher table for the C8 witness. -/
def w8 : List (Vector2 × Nat) := [(⟨0, 0⟩, 2), (⟨1, 0⟩, 1)]

/-- Concrete coordinate batch for the C8 witness: one entry left positive, one
reaching zero, one absent. -/
def cs8 : List Vector2 := [⟨0, 0⟩, ⟨1, 0⟩, ⟨2, 0⟩]

/-- Witness for C8 at a concrete input. -/
theorem c8_witness :
    (mark_chunks_as_not_watched w8 cs8).2 = cs8.filter (reachesZero w8)
    ∧ (∀ c, alookup c (mark_chunks_as_not_watched w8 cs8).1 =
        if c ∈ cs8 then decrementedEntry w8 c else alookup c w8)
    ∧ (∀ c ∈ cs8, alookup c w8 = none →
        alookup c (mark_chunks_as_not_watched w8 cs8).1 = none ∧
          c ∉ (mark_chunks_as_not_watched w8 cs8).2) :=
  c8_stop_watching w8 cs8 (by decide)

theorem mark_chunks_as_newly_watched_fresh (w : List (Vector2 × Nat)) (cs : List Vector2)
    (hnd : cs.Nodup) (hfresh : ∀ c ∈ cs, alookup c w = none) (c : Vector2) :
    alookup c (mark_chunks_as_newly_watched w cs) =
      if c ∈ cs then some 1 else alookup c w := by
  induction cs generalizing w with
  | nil => simp [mark_chunks_as_newly_watched]
  | cons c2 cs ih =>
    have hnotmem : c2 ∉ cs := (List.nodup_cons.mp hnd).1
    have hnd2 : cs.Nodup := (List.nodup_cons.mp hnd).2
    have hl : alookup c2 w = none := hfresh c2 (List.mem_cons_self _ _)
    show alookup c (mark_chunks_as_newly_watched (mark_chunk_newly_watched w c2) cs) = _
    have hstep : mark_chunk_newly_watched w c2 = aupdate c2 1 w := by
      simp only [mark_chunk_newly_watched, hl]
    have hfresh2 : ∀ x ∈ cs, alookup x (aupdate c2 1 w) = none := by
      intro x hx
      have hne : c2 ≠ x := by
        intro h
        exact hnotmem (h ▸ hx)
      rw [alookup_aupdate_other _ w hne, hfresh x (List.mem_cons_of_mem _ hx)]
    rw [hstep, ih _ hnd2 hfresh2]
    by_cases hcc : c = c2
    · subst hcc
      rw [if_neg hnotmem, alookup_aupdate_self, if_pos (List.mem_cons_self c cs)]
    · rw [alookup_aupdate_other _ w (fun h => hcc h.symm)]
      by_cases hcs : c ∈ cs
      · rw [if_pos hcs, if_pos (List.mem_cons_of_mem _ hcs)]
      · rw [if_neg hcs, if_neg (by simp [List.mem_cons, hcc, hcs])]

/-- Counterexample to C9 as stated: on a table where `(0,0)` already has one
watcher, `mark_chunks_as_newly_watched` then `mark_chunks_as_not_watched` on
`[(0,0)]` returns the empty cleanup list (the coordinate is not reported
eviction-eligible) and leaves a residual positive count of 1. -/
theorem c9_counterexample :
    (mark_chunks_as_not_watched
        (mark_chunks_as_newly_watched [((⟨0, 0⟩ : Vector2), 1)] [(⟨0, 0⟩ : Vector2)])
        [(⟨0, 0⟩ : Vector2)]).2 = []
    ∧ alookup (⟨0, 0⟩ : Vector2)
        (mark_chunks_as_not_watched
          (mark_chunks_as_newly_watched [((⟨0, 0⟩ : Vector2), 1)] [(⟨0, 0⟩ : Vector2)])
          [(⟨0, 0⟩ : Vector2)]).1 = some 1 := by
  decide

/-- C9 (amended): for every set of distinct coordinates none of which already
has a watcher-table entry, `mark_chunks_as_newly_watched` followed immediately
by `mark_chunks_as_not_watched` on that same set returns every coordinate of
the set as eviction-eligible and leaves no entry (hence no residual positive
count) for any of them. -/
theorem c9_begin_then_stop (w : List (Vector2 × Nat)) (cs : List Vector2)
    (hnd : cs.Nodup) (hfresh : ∀ c ∈ cs, alookup c w = none) :
    (mark_chunks_as_not_watched (mark_chunks_as_newly_watched w cs) cs).2 = cs
    ∧ ∀ c ∈ cs,
        alookup c (mark_chunks_as_not_watched (mark_chunks_as_newly_watched w cs) cs).1 =
          none := by
  constructor
  · rw [mark_chunks_as_not_watched_ret _ _ hnd]
    apply List.filter_eq_self.mpr
    intro c hc
    simp only [reachesZero, mark_chunks_as_newly_watched_fresh w cs hnd hfresh c, if_pos hc]
    decide
  · intro c hc
    rw [mark_chunks_as_not_watched_lookup _ _ hnd, if_pos hc]
    simp only [decrementedEntry, mark_chunks_as_newly_watched_fresh w cs hnd hfresh c,
      if_pos hc]
    simp

/-- Witness for C9 (amended) at a concrete input. -/
theorem c9_witness :
    (mark_chunks_as_not_watched
        (mark_chunks_as_newly_watched [] [(⟨3, 4⟩ : Vector2)]) [(⟨3, 4⟩ : Vector2)]).2 =
      [(⟨3, 4⟩ : Vector2)]
    ∧ ∀ c ∈ [(⟨3, 4⟩ : Vector2)],
        alookup c (mark_chunks_as_not_watched
          (mark_chunks_as_newly_watched [] [(⟨3, 4⟩ : Vector2)]) [(⟨3, 4⟩ : Vector2)]).1 =
          none :=
  c9_begin_then_stop [] [⟨3, 4⟩] (by decide) (by decide)

/-! ### `write_chunks`: draining scheduled ticks into chunk records -/

/-- One chunk's pass of the `retain` loop in `write_chunks` (for the chunk at
`coord`): ticks whose owning chunk is `coord` are pushed onto the chunk's
record (in collection order) and dropped from the global collection; all
other ticks are retained, in order.  `chunkOf` is the owning-chunk
derivation from a tick's block position. -/
def drainFor (chunkOf : BlockPos → Vector2) (coord : Vector2) :
    List ScheduledTick → List ScheduledTick × List ScheduledTick
  | [] => ([], [])
  | t :: rest =>
    let r := drainFor chunkOf coord rest
    if chunkOf t.block_pos = coord then (t :: r.1, r.2) else (r.1, t :: r.2)

/-- `Level::write_chunks` restricted to the state it touches: for each chunk
to write (its coordinate paired with its current `block_ticks` record, which
the loop first clears), in order, the global tick collection is drained into
the record.  Returns the final global collection and the updated records
handed to `ChunkIO::save_chunks`. -/
def write_chunks (chunkOf : BlockPos → Vector2) (global : List ScheduledTick) :
    List (Vector2 × List ScheduledTick) →
      List ScheduledTick × List (Vector2 × List ScheduledTick)
  | [] => (global, [])
  | (coord, _old) :: rest =>
    let d := drainFor chunkOf coord global
    let r := write_chunks chunkOf d.2 rest
    (r.1, (coord, d.1) :: r.2)

/-- The block-tick merge of the chunk-load path in `fetch_chunks`
(`level_block_ticks.extend(block_ticks)`): a loaded chunk's stored ticks are
appended to the global collection. -/
def mergeLoadedTicks (global : List ScheduledTick) (record : List ScheduledTick) :
    List ScheduledTick :=
  global ++ record

theorem drainFor_fst (f : BlockPos → Vector2) (coord : Vector2) (l : List ScheduledTick) :
    (drainFor f coord l).1 = l.filter fun t => decide (f t.block_pos = coord) := by
  induction l with
  | nil => rfl
  | cons t rest ih =>
    rw [List.filter_cons]
    simp only [drainFor]
    by_cases h : f t.block_pos = coord
    · rw [if_pos h, if_pos (by simp [h])]
      simpa using ih
    · rw [if_neg h, if_neg (by simp [h])]
      simpa using ih

theorem drainFor_snd (f : BlockPos → Vector2) (coord : Vector2) (l : List ScheduledTick) :
    (drainFor f coord l).2 = l.filter fun t => !decide (f t.block_pos = coord) := by
  induction l with
  | nil => rfl
  | cons t rest ih =>
    rw [List.filter_cons]
    simp only [drainFor]
    by_cases h : f t.block_pos = coord
    · rw [if_pos h, if_neg (by simp [h])]
      simpa using ih
    · rw [if_neg h, if_pos (by simp [h])]
      simpa using ih

theorem write_chunks_fst (f : BlockPos → Vector2) (global : List ScheduledTick)
    (recs : List (Vector2 × List ScheduledTick)) :
    (write_chunks f global recs).1 =
      global.filter fun t => decide (f t.block_pos ∉ recs.map Prod.fst) := by
  induction recs generalizing global with
  | nil =>
    show global = _
    rw [List.filter_eq_self.mpr]
    intro t _
    simp
  | cons r rest ih =>
    obtain ⟨coord, old⟩ := r
    show (write_chunks f (drainFor f coord global).2 rest).1 = _
    rw [ih, drainFor_snd, List.filter_filter]
    apply List.filter_congr
    intro t _
    rw [← decide_not, ← Bool.decide_and, decide_eq_decide]
    simp only [List.map_cons, List.mem_cons, not_or]
    tauto

theorem write_chunks_snd (f : BlockPos → Vector2) (global : List ScheduledTick)
    (recs : List (Vector2 × List ScheduledTick)) (hnd : (recs.map Prod.fst).Nodup) :
    (write_chunks f global recs).2 =
      recs.map fun r => (r.1, global.filter fun t => decide (f t.block_pos = r.1)) := by
  induction recs generalizing global with
  | nil => rfl
  | cons r rest ih =>
    obtain ⟨coord, old⟩ := r
    have hnotmem : coord ∉ rest.map Prod.fst := (List.nodup_cons.mp hnd).1
    have hnd2 : (rest.map Prod.fst).Nodup := (List.nodup_cons.mp hnd).2
    show (coord, (drainFor f coord global).1) ::
        (write_chunks f (drainFor f coord global).2 rest).2 = _
    rw [List.map_cons, drainFor_fst, drainFor_snd, ih _ hnd2]
    congr 1
    apply List.map_congr_left
    intro a ha
    have hne : a.1 ≠ coord := by
      intro h
      exact hnotmem (h ▸ List.mem_map_of_mem Prod.fst ha)
    rw [List.filter_filter]
    congr 1
    apply List.filter_congr
    intro t _
    by_cases h : f t.block_pos = a.1
    · simp [h, hne]
    · simp [h]

theorem foldl_merge_eq_flatten (a : List ScheduledTick)
    (l : List (Vector2 × List ScheduledTick)) :
    l.foldl (fun g r => mergeLoadedTicks g r.2) a = a ++ (l.map Prod.snd).flatten := by
  induction l generalizing a with
  | nil => simp
  | cons x xs ih =>
    show xs.foldl (fun g r => mergeLoadedTicks g r.2) (a ++ x.2) = _
    rw [ih, List.map_cons, List.flatten_cons, List.append_assoc]

theorem write_chunks_roundtrip (f : BlockPos → Vector2) (global : List ScheduledTick)
    (recs : List (Vector2 × List ScheduledTick)) :
    ((write_chunks f global recs).1 ++
      ((write_chunks f global recs).2.map Prod.snd).flatten).Perm global := by
  induction recs generalizing global with
  | nil =>
    show (global ++ (List.map Prod.snd []).flatten).Perm global
    simp
  | cons r rest ih =>
    obtain ⟨coord, old⟩ := r
    have hpart : ((drainFor f coord global).1 ++ (drainFor f coord global).2).Perm global := by
      rw [drainFor_fst, drainFor_snd]
      exact List.filter_append_perm _ global
    show ((write_chunks f (drainFor f coord global).2 rest).1 ++
        ((drainFor f coord global).1 ::
          (write_chunks f (drainFor f coord global).2 rest).2.map Prod.snd).flatten).Perm global
    rw [List.flatten_cons]
    refine (List.Perm.append_left _ List.perm_append_comm).trans ?_
    rw [← List.append_assoc]
    exact (((ih _).append_right _).trans List.perm_append_comm).trans hpart

/-- C4: when `write_chunks` runs over chunks with distinct coordinates, every
tick of the global collection whose block position lies inside one of the
written chunks is moved into that chunk's record (the record's previous tick
list is replaced by exactly the global ticks owned by its coordinate, in
collection order), those ticks are removed from the global collection while
ticks of other chunks are left untouched (conjuncts 1 and 2), and merging all
written records back into the global collection — the load path's
`extend(block_ticks)` — restores a permutation of the original collection, so
no tick is lost across a save/evict/reload cycle (conjunct 3). -/
theorem c4_ticks_survive_save_reload (chunkOf : BlockPos → Vector2)
    (global : List ScheduledTick) (recs : List (Vector2 × List ScheduledTick))
    (hnd : (recs.map Prod.fst).Nodup) :
    (write_chunks chunkOf global recs).1 =
      (global.filter fun t => decide (chunkOf t.block_pos ∉ recs.map Prod.fst))
    ∧ (write_chunks chunkOf global recs).2 =
        (recs.map fun r => (r.1, global.filter fun t => decide (chunkOf t.block_pos = r.1)))
    ∧ ((write_chunks chunkOf global recs).2.foldl
        (fun g r => mergeLoadedTicks g r.2) (write_chunks chunkOf global recs).1).Perm
        global :=
  ⟨write_chunks_fst chunkOf global recs,
   write_chunks_snd chunkOf global recs hnd,
   by rw [foldl_merge_eq_flatten]; exact write_chunks_roundtrip chunkOf global recs⟩

/-- Concrete global tick collection for the C4 witness: one tick in chunk
`(0,0)`, one in chunk `(1,0)`, one in chunk `(-1,0)`. -/
def g4 : List ScheduledTick := [⟨⟨0, 0, 0⟩, 3, 1, 5⟩, ⟨⟨20, 1, 0⟩, 2, 0, 6⟩, ⟨⟨-1, 0, 0⟩, 1, 2, 7⟩]

/-- Concrete chunk records for the C4 witness (the first holds a stale tick
list that the write replaces). -/
def r4 : List (Vector2 × List ScheduledTick) :=
  [(⟨0, 0⟩, [⟨⟨9, 9, 9⟩, 9, 9, 9⟩]), (⟨1, 0⟩, [])]

/-- Witness for C4 at a concrete input. -/
theorem c4_witness :
    (write_chunks chunkOfBlockPos g4 r4).1 =
      (g4.filter fun t => decide (chunkOfBlockPos t.block_pos ∉ r4.map Prod.fst))
    ∧ (write_chunks chunkOfBlockPos g4 r4).2 =
        (r4.map fun r => (r.1, g4.filter fun t => decide (chunkOfBlockPos t.block_pos = r.1)))
    ∧ ((write_chunks chunkOfBlockPos g4 r4).2.foldl
        (fun g r => mergeLoadedTicks g r.2) (write_chunks chunkOfBlockPos g4 r4).1).Perm g4 :=
  c4_ticks_survive_save_reload chunkOfBlockPos g4 r4 (by decide)

/-! ### `clean_chunks`: eviction with write-then-recheck -/

/-- Watcher-count test used by `clean_chunks` and its `remove_if` recheck:
`chunk_watchers.get(pos).is_none_or(|count| count.is_zero())`. -/
def watcherFree (w : List (Vector2 × Nat)) (pos : Vector2) : Bool :=
  match alookup pos w with
  | none => true
  | some n => decide (n = 0)

/-- First phase of `Level::clean_chunks`: snapshot, among the requested
chunks, those that currently have no watcher and are cache-resident, pairing
each with its cloned handle. -/
def clean_chunks_snapshot (w : List (Vector2 × Nat)) (loaded : List (Vector2 × SyncChunk))
    (chunks : List Vector2) : List (Vector2 × SyncChunk) :=
  chunks.filterMap fun pos =>
    if watcherFree w pos then (alookup pos loaded).map fun chunk => (pos, chunk) else none

/-- Removal phase of the task spawned by `Level::clean_chunks`, run only
after `write_chunks` on the snapshot has completed: each snapshotted
coordinate is removed via `remove_if`, re-validating under the entry lock
that it still has no watcher at removal time (`w2` is the watcher table as of
the removal; concurrent callers may have changed it since the snapshot). -/
def clean_chunks_remove (snapshot : List (Vector2 × SyncChunk)) (w2 : List (Vector2 × Nat))
    (m : List (Vector2 × SyncChunk)) : List (Vector2 × SyncChunk) :=
  snapshot.foldl (fun acc e => if watcherFree w2 e.1 then aerase e.1 acc else acc) m

/-- Observable actions of the eviction task, in program order. -/
inductive CleanEvent where
  | writeBatch (batch : List (Vector2 × SyncChunk))
  | removeEntry (pos : Vector2)
deriving DecidableEq, Repr

/-- Ordered action trace of the task spawned by `clean_chunks`: one batched
hand-off of the snapshot to the storage write path, followed (only after that
write completes) by the removals that pass the zero-watcher recheck. -/
def clean_chunks_events (w1 w2 : List (Vector2 × Nat)) (loaded : List (Vector2 × SyncChunk))
    (chunks : List Vector2) : List CleanEvent :=
  let snap := clean_chunks_snapshot w1 loaded chunks
  CleanEvent.writeBatch snap ::
    (snap.filter fun e => watcherFree w2 e.1).map fun e => CleanEvent.removeEntry e.1

theorem clean_chunks_remove_lookup (snap : List (Vector2 × SyncChunk))
    (w2 : List (Vector2 × Nat)) (m : List (Vector2 × SyncChunk)) (pos : Vector2) :
    alookup pos (clean_chunks_remove snap w2 m) =
      if pos ∈ snap.map Prod.fst ∧ watcherFree w2 pos = true then none
      else alookup pos m := by
  induction snap generalizing m with
  | nil =>
    simp [clean_chunks_remove]
  | cons e snap ih =>
    show alookup pos (clean_chunks_remove snap w2
      (if watcherFree w2 e.1 then aerase e.1 m else m)) = _
    rw [ih, List.map_cons]
    by_cases h1 : pos ∈ snap.map Prod.fst ∧ watcherFree w2 pos = true
    · rw [if_pos h1, if_pos ⟨List.mem_cons_of_mem _ h1.1, h1.2⟩]
    · rw [if_neg h1]
      by_cases h2 : pos = e.1 ∧ watcherFree w2 pos = true
      · have hfe : watcherFree w2 e.1 = true := by
          rw [← h2.1]
          exact h2.2
        have hcondR : pos ∈ e.1 :: snap.map Prod.fst ∧ watcherFree w2 pos = true :=
          ⟨List.mem_cons.mpr (Or.inl h2.1), h2.2⟩
        rw [if_pos hfe, if_pos hcondR, h2.1]
        exact alookup_aerase_self e.1 m
      · have hcond : ¬ (pos ∈ e.1 :: snap.map Prod.fst ∧ watcherFree w2 pos = true) := by
          intro hc
          rcases hc with ⟨hmem, hfree⟩
          rcases List.mem_cons.mp hmem with heq | hmem2
          · exact h2 ⟨heq, hfree⟩
          · exact h1 ⟨hmem2, hfree⟩
        rw [if_neg hcond]
        by_cases h3 : watcherFree w2 e.1 = true
        · rw [if_pos h3]
          have hne : pos ≠ e.1 := by
            intro heq
            refine h2 ⟨heq, ?_⟩
            rw [heq]
            exact h3
          exact alookup_aerase_other m fun h => hne h.symm
        · rw [if_neg h3]

/-- C3: during eviction, a chunk enters the flush snapshot only if it is
cache-resident with no watcher (conjunct 1); its cache entry is removed only
if it still has no watcher when re-checked at removal time — a coordinate
whose watcher count is positive at removal time keeps exactly its prior cache
entry (conjuncts 2–4) — and in the eviction task's trace the hand-off of the
snapshot to the storage write path comes first, every removal strictly after
it and only for re-validated snapshot coordinates (conjuncts 5–6). -/
theorem c3_clean_chunks_write_then_recheck (w1 w2 : List (Vector2 × Nat))
    (loaded : List (Vector2 × SyncChunk)) (chunks : List Vector2) :
    (∀ e ∈ clean_chunks_snapshot w1 loaded chunks,
        watcherFree w1 e.1 = true ∧ alookup e.1 loaded = some e.2)
    ∧ (∀ pos, watcherFree w2 pos = false →
        alookup pos (clean_chunks_remove (clean_chunks_snapshot w1 loaded chunks) w2 loaded) =
          alookup pos loaded)
    ∧ (∀ pos, pos ∈ (clean_chunks_snapshot w1 loaded chunks).map Prod.fst →
        watcherFree w2 pos = true →
        alookup pos (clean_chunks_remove (clean_chunks_snapshot w1 loaded chunks) w2 loaded) =
          none)
    ∧ (∀ pos, pos ∉ (clean_chunks_snapshot w1 loaded chunks).map Prod.fst →
        alookup pos (clean_chunks_remove (clean_chunks_snapshot w1 loaded chunks) w2 loaded) =
          alookup pos loaded)
    ∧ (clean_chunks_events w1 w2 loaded chunks).head? =
        some (CleanEvent.writeBatch (clean_chunks_snapshot w1 loaded chunks))
    ∧ (∀ pos, CleanEvent.removeEntry pos ∈ (clean_chunks_events w1 w2 loaded chunks).tail →
        pos ∈ (clean_chunks_snapshot w1 loaded chunks).map Prod.fst ∧
          watcherFree w2 pos = true) := by
  refine ⟨?_, ?_, ?_, ?_, rfl, ?_⟩
  · intro e he
    rcases List.mem_filterMap.mp he with ⟨pos, _, hf⟩
    by_cases hfree : watcherFree w1 pos = true
    · rw [if_pos hfree] at hf
      rcases Option.map_eq_some'.mp hf with ⟨chunk, hlook, hpair⟩
      cases hpair
      exact ⟨hfree, hlook⟩
    · rw [if_neg hfree] at hf
      exact absurd hf (by simp)
  · intro pos hfree
    rw [clean_chunks_remove_lookup]
    rw [if_neg (by intro hc; rw [hc.2] at hfree; cases hfree)]
  · intro pos hmem hfree
    rw [clean_chunks_remove_lookup, if_pos ⟨hmem, hfree⟩]
  · intro pos hmem
    rw [clean_chunks_remove_lookup, if_neg (by intro hc; exact hmem hc.1)]
  · intro pos hmem
    show pos ∈ _ ∧ _
    have hmem2 : CleanEvent.removeEntry pos ∈
        ((clean_chunks_snapshot w1 loaded chunks).filter fun e =>
          watcherFree w2 e.1).map fun e => CleanEvent.removeEntry e.1 := hmem
    rcases List.mem_map.mp hmem2 with ⟨e, hef, heq⟩
    have hpos : e.1 = pos := by
      injection heq
    rcases List.mem_filter.mp hef with ⟨hesnap, hefree⟩
    exact ⟨hpos ▸ List.mem_map_of_mem Prod.fst hesnap, hpos ▸ hefree⟩

/-- Witness for C3 at a concrete input: coordinate `(0,0)` is snapshotted
with zero watchers, but a watcher reappears before removal (`w2`), so the
entry stays resident. -/
theorem c3_witness :
    alookup (⟨0, 0⟩ : Vector2)
      (clean_chunks_remove
        (clean_chunks_snapshot [] [((⟨0, 0⟩ : Vector2), ⟨1, ⟨0, 0⟩, []⟩)] [(⟨0, 0⟩ : Vector2)])
        [((⟨0, 0⟩ : Vector2), 1)]
        [((⟨0, 0⟩ : Vector2), ⟨1, ⟨0, 0⟩, []⟩)]) =
      alookup (⟨0, 0⟩ : Vector2) [((⟨0, 0⟩ : Vector2), ⟨1, ⟨0, 0⟩, []⟩)] :=
  (c3_clean_chunks_write_then_recheck [] [(⟨0, 0⟩, 1)]
      [(⟨0, 0⟩, ⟨1, ⟨0, 0⟩, []⟩)] [⟨0, 0⟩]).2.1 ⟨0, 0⟩ (by decide)

/-! ### `shutdown` -/

theorem write_chunks_keys (f : BlockPos → Vector2) (global : List ScheduledTick)
    (recs : List (Vector2 × List ScheduledTick)) :
    (write_chunks f global recs).2.map Prod.fst = recs.map Prod.fst := by
  induction recs generalizing global with
  | nil => rfl
  | cons r rest ih =>
    obtain ⟨coord, old⟩ := r
    show coord :: (write_chunks f (drainFor f coord global).2 rest).2.map Prod.fst = _
    rw [ih, List.map_cons]

/-- State left behind by `Level::shutdown`, together with the chunk records
handed to the storage write path. -/
structure ShutdownOutcome where
  written : List (Vector2 × List ScheduledTick)
  blockTicksAfter : List ScheduledTick
  loadedAfter : List (Vector2 × SyncChunk)
  chunkWatchersAfter : List (Vector2 × Nat)
  backendWatchedAfter : List Vector2
  metaWriteFailureLogged : Bool
deriving DecidableEq, Repr

/-- `Level::shutdown` restricted to the state it touches, in program order:
after awaiting the level tasks and the storage backend's in-flight work, it
snapshots every entry of `loaded_chunks` (the watcher table is never
consulted), clears `loaded_chunks`, clears the backend's watched-chunk set,
writes the snapshot through `write_chunks` (which drains the owned scheduled
ticks into the records), and finally writes the world metadata, a failure of
which is only logged.  `metaResult` is the outcome of
`write_world_info`. -/
def shutdown (chunkOf : BlockPos → Vector2) (loaded : List (Vector2 × SyncChunk))
    (watchers : List (Vector2 × Nat)) (blockTicks : List ScheduledTick)
    (metaResult : Except String Unit) : ShutdownOutcome :=
  let chunks_to_write := loaded.map fun e => (e.1, e.2.block_ticks)
  let wr := write_chunks chunkOf blockTicks chunks_to_write
  { written := wr.2
    blockTicksAfter := wr.1
    loadedAfter := []
    chunkWatchersAfter := watchers
    backendWatchedAfter := []
    metaWriteFailureLogged := (!metaResult.isOk) }

/-- Counterexample to C6 as stated: shutting down a level whose watcher table
still records one watcher for `(0,0)` leaves that watcher-table entry in
place — `shutdown` never clears `chunk_watchers`, so the watcher table is not
empty after shutdown completes. -/
theorem c6_counterexample :
    (shutdown chunkOfBlockPos [] [((⟨0, 0⟩ : Vector2), 1)] []
        (Except.ok ())).chunkWatchersAfter ≠ [] := by
  decide

/-- C6 (amended): `shutdown` hands every chunk that is cache-resident at
shutdown time to the storage write path regardless of its watcher count (the
watcher table is never consulted; conjunct 1), and afterwards the chunk cache
and the storage backend's watched-chunk set are empty while the level's
watcher table is left unchanged — not necessarily empty (conjuncts 2–4); a
failure to write the world metadata is logged but changes nothing else about
the completed shutdown (conjuncts 5–6). -/
theorem c6_shutdown_flushes_all (chunkOf : BlockPos → Vector2)
    (loaded : List (Vector2 × SyncChunk)) (watchers : List (Vector2 × Nat))
    (blockTicks : List ScheduledTick) (metaResult : Except String Unit) :
    (shutdown chunkOf loaded watchers blockTicks metaResult).written.map Prod.fst =
      loaded.map Prod.fst
    ∧ (shutdown chunkOf loaded watchers blockTicks metaResult).loadedAfter = []
    ∧ (shutdown chunkOf loaded watchers blockTicks metaResult).backendWatchedAfter = []
    ∧ (shutdown chunkOf loaded watchers blockTicks metaResult).chunkWatchersAfter = watchers
    ∧ (shutdown chunkOf loaded watchers blockTicks metaResult).metaWriteFailureLogged =
        (!metaResult.isOk)
    ∧ shutdown chunkOf loaded watchers blockTicks metaResult =
        { shutdown chunkOf loaded watchers blockTicks (Except.ok ()) with
            metaWriteFailureLogged := (!metaResult.isOk) } := by
  refine ⟨?_, rfl, rfl, rfl, rfl, rfl⟩
  show (write_chunks chunkOf blockTicks (loaded.map fun e => (e.1, e.2.block_ticks))).2.map
      Prod.fst = _
  rw [write_chunks_keys, List.map_map]
  rfl

/-! ### `fetch_chunks` -/

/-- Modelled from the spec and the match in `fetch_chunks`: the storage read
error taxonomy (`ChunkReadingError` lives outside the excerpt).
`ChunkNotExist` and `ParsingError(ChunkNotGenerated)` are the recognized
"not yet generated" cases handled silently; every other variant is collapsed
into `OtherError`, which is logged. -/
inductive ChunkReadingError where
  | ChunkNotExist
  | ParsingErrorChunkNotGenerated
  | OtherError
deriving DecidableEq, Repr

/-- Per-coordinate result delivered by `ChunkIO::fetch_chunks` over the load
bridge channel (`LoadedData<SyncChunk, ChunkReadingError>`). -/
inductive LoadedData where
  | Loaded (chunk : SyncChunk)
  | Missing (pos : Vector2)
  | Error (pos : Vector2) (error : ChunkReadingError)
deriving DecidableEq, Repr

/-- The coordinate a bridge result is about (a loaded chunk is keyed by its
recorded `position`; `Missing` and `Error` carry the coordinate). -/
def dCoord : LoadedData → Vector2
  | .Loaded chunk => chunk.position
  | .Missing pos => pos
  | .Error pos _ => pos

/-- Which emission flag a bridge result leads to: loaded chunks are sent with
`is_new = false`, `Missing`/`Error` coordinates go to generation and are sent
with `is_new = true`. -/
def dIsGen : LoadedData → Bool
  | .Loaded _ => false
  | .Missing _ => true
  | .Error _ _ => true

/-- Contract of the storage backend (spec section 6): each per-coordinate
result is about the coordinate it was requested for — a loaded chunk's
recorded position is the requested coordinate, and `Missing`/`Error` carry
the requested coordinate. -/
def storageConsistent (storage : Vector2 → LoadedData) : Prop :=
  ∀ c, dCoord (storage c) = c

/-- State of one `fetch_chunks` call: the chunk cache, the global tick
collection, the fresh-`Arc` id counter, the emissions sent so far on the
output channel (the channel carries `(chunk, is_new)`; the leading `Vector2`
is the ghost provenance — the coordinate whose processing sent it), and the
coordinates whose load errors were logged. -/
structure FetchSt where
  loaded : List (Vector2 × SyncChunk)
  blockTicks : List ScheduledTick
  nextId : Nat
  out : List (Vector2 × SyncChunk × Bool)
  loggedLoadErrors : List Vector2
deriving DecidableEq, Repr

/-- The generation path of `fetch_chunks` (`handle_generate`): the dedup
primitive `loaded_chunks.entry(pos).or_insert_with(generate)` run as one
atomic step (the generation closure executes inside the dashmap entry lock —
"Avoid possible duplicating work by doing this within the dashmap lock"),
followed by `send_chunk(true, result)`.  A fresh `Arc::new` is modelled by
the fresh id counter; `genTicks` parametrises the external generator's chunk
content (`world_gen.generate_chunk(pos)` has position `pos`). -/
def genPath (genTicks : Vector2 → List ScheduledTick) (st : FetchSt) (pos : Vector2) :
    FetchSt :=
  match alookup pos st.loaded with
  | some h => { st with out := st.out ++ [(pos, h, true)] }
  | none =>
    let h : SyncChunk := ⟨st.nextId, pos, genTicks pos⟩
    { st with loaded := aupdate pos h st.loaded, nextId := st.nextId + 1,
              out := st.out ++ [(pos, h, true)] }

/-- One `handle_load` iteration for a single bridge result: a loaded chunk's
stored ticks are merged into the global collection and the chunk is inserted
via `entry(position).or_insert(chunk)`, emitting the canonical handle with
`is_new = false`; `Missing` forwards the coordinate to the generation
handler, and so does every `Error` — the recognized not-yet-generated errors
silently, any other error after logging. -/
def handleLoadResult (genTicks : Vector2 → List ScheduledTick) (st : FetchSt) :
    LoadedData → FetchSt
  | .Loaded chunk =>
    match alookup chunk.position st.loaded with
    | some h =>
      { st with blockTicks := mergeLoadedTicks st.blockTicks chunk.block_ticks,
                out := st.out ++ [(chunk.position, h, false)] }
    | none =>
      { st with blockTicks := mergeLoadedTicks st.blockTicks chunk.block_ticks,
                loaded := aupdate chunk.position chunk st.loaded,
                out := st.out ++ [(chunk.position, chunk, false)] }
  | .Missing pos => genPath genTicks st pos
  | .Error pos e =>
    genPath genTicks
      (if e = ChunkReadingError.OtherError
       then { st with loggedLoadErrors := st.loggedLoadErrors ++ [pos] }
       else st) pos

/-- The cache/spawn pass of `fetch_chunks`: cached chunks are sent
immediately with `is_new = false`; a spawn chunk's handle is also inserted
into `loaded_chunks` and sent with `is_new = false`; everything else is
collected as `remaining_chunks`, in input order. -/
def fetchPhase1 (spawn : List (Vector2 × SyncChunk)) (st : FetchSt) :
    List Vector2 → FetchSt × List Vector2
  | [] => (st, [])
  | c :: rest =>
    match alookup c st.loaded with
    | some h => fetchPhase1 spawn { st with out := st.out ++ [(c, h, false)] } rest
    | none =>
      match alookup c spawn with
      | some h =>
        fetchPhase1 spawn
          { st with loaded := aupdate c h st.loaded, out := st.out ++ [(c, h, false)] } rest
      | none =>
        let r := fetchPhase1 spawn st rest
        (r.1, c :: r.2)

/-- The storage/generation pass: `ChunkIO::fetch_chunks` delivers one bridge
result per remaining coordinate (`storage` is the backend oracle); the
`handle_load` and `handle_generate` tasks are serialised per result, which
preserves every per-coordinate effect — interleavings across distinct
coordinates only permute the order on the output channel. -/
def fetchPhase2 (genTicks : Vector2 → List ScheduledTick) (storage : Vector2 → LoadedData)
    (st : FetchSt) : List Vector2 → FetchSt
  | [] => st
  | c :: rest =>
    fetchPhase2 genTicks storage (handleLoadResult genTicks st (storage c)) rest

/-- `Level::fetch_chunks` over the state it touches: empty input returns
immediately; otherwise the cache/spawn pass runs first, and if any
coordinates remain they are fetched from storage and, when absent or
errored, generated. -/
def fetch_chunks (genTicks : Vector2 → List ScheduledTick) (spawn : List (Vector2 × SyncChunk))
    (storage : Vector2 → LoadedData) (loaded0 : List (Vector2 × SyncChunk))
    (blockTicks0 : List ScheduledTick) (nextId0 : Nat) (chunks : List Vector2) : FetchSt :=
  let st0 : FetchSt := ⟨loaded0, blockTicks0, nextId0, [], []⟩
  if chunks.isEmpty then st0
  else
    let r := fetchPhase1 spawn st0 chunks
    if r.2.isEmpty then r.1
    else fetchPhase2 genTicks storage r.1 r.2

theorem genPath_out (genTicks : Vector2 → List ScheduledTick) (st : FetchSt) (pos : Vector2) :
    ∃ h, (genPath genTicks st pos).out = st.out ++ [(pos, h, true)] := by
  cases hl : alookup pos st.loaded with
  | some h => exact ⟨h, by simp [genPath, hl]⟩
  | none => exact ⟨⟨st.nextId, pos, genTicks pos⟩, by simp [genPath, hl]⟩

theorem genPath_loaded_other (genTicks : Vector2 → List ScheduledTick) (st : FetchSt)
    (pos x : Vector2) (hne : pos ≠ x) :
    alookup x (genPath genTicks st pos).loaded = alookup x st.loaded := by
  cases hl : alookup pos st.loaded with
  | some h => simp [genPath, hl]
  | none => simp [genPath, hl, alookup_aupdate_other _ _ hne]

theorem handleLoadResult_out (genTicks : Vector2 → List ScheduledTick) (st : FetchSt)
    (d : LoadedData) :
    ∃ h, (handleLoadResult genTicks st d).out = st.out ++ [(dCoord d, h, dIsGen d)] := by
  cases d with
  | Loaded chunk =>
    cases hl : alookup chunk.position st.loaded with
    | some h => exact ⟨h, by simp [handleLoadResult, hl, dCoord, dIsGen]⟩
    | none => exact ⟨chunk, by simp [handleLoadResult, hl, dCoord, dIsGen]⟩
  | Missing pos =>
    exact genPath_out genTicks st pos
  | Error pos e =>
    show ∃ h, (genPath genTicks _ pos).out = _
    by_cases he : e = ChunkReadingError.OtherError
    · rw [if_pos he]
      exact genPath_out genTicks _ pos
    · rw [if_neg he]
      exact genPath_out genTicks st pos

theorem handleLoadResult_loaded_other (genTicks : Vector2 → List ScheduledTick) (st : FetchSt)
    (d : LoadedData) (x : Vector2) (hne : dCoord d ≠ x) :
    alookup x (handleLoadResult genTicks st d).loaded = alookup x st.loaded := by
  cases d with
  | Loaded chunk =>
    cases hl : alookup chunk.position st.loaded with
    | some h => simp [handleLoadResult, hl]
    | none =>
      simp only [handleLoadResult, hl]
      exact alookup_aupdate_other _ _ hne
  | Missing pos =>
    exact genPath_loaded_other genTicks st pos x hne
  | Error pos e =>
    show alookup x (genPath genTicks _ pos).loaded = _
    by_cases he : e = ChunkReadingError.OtherError
    · rw [if_pos he]
      exact genPath_loaded_other genTicks _ pos x hne
    · rw [if_neg he]
      exact genPath_loaded_other genTicks st pos x hne

theorem fetchPhase2_out_append (genTicks : Vector2 → List ScheduledTick)
    (storage : Vector2 → LoadedData) (st : FetchSt) (cs : List Vector2) :
    ∃ e, (fetchPhase2 genTicks storage st cs).out = st.out ++ e := by
  induction cs generalizing st with
  | nil => exact ⟨[], by simp [fetchPhase2]⟩
  | cons c rest ih =>
    rcases ih (handleLoadResult genTicks st (storage c)) with ⟨e, he⟩
    rcases handleLoadResult_out genTicks st (storage c) with ⟨h, hh⟩
    refine ⟨[(dCoord (storage c), h, dIsGen (storage c))] ++ e, ?_⟩
    show (fetchPhase2 genTicks storage (handleLoadResult genTicks st (storage c)) rest).out = _
    rw [he, hh, List.append_assoc]

theorem fetchPhase2_coords (genTicks : Vector2 → List ScheduledTick)
    (storage : Vector2 → LoadedData) (hsc : storageConsistent storage) (st : FetchSt)
    (cs : List Vector2) :
    (fetchPhase2 genTicks storage st cs).out.map (fun e => e.1) =
      st.out.map (fun e => e.1) ++ cs := by
  induction cs generalizing st with
  | nil => simp [fetchPhase2]
  | cons c rest ih =>
    show (fetchPhase2 genTicks storage (handleLoadResult genTicks st (storage c)) rest).out.map
      (fun e => e.1) = _
    rw [ih]
    rcases handleLoadResult_out genTicks st (storage c) with ⟨h, hh⟩
    rw [hh, List.map_append, hsc c, List.append_assoc]
    rfl

theorem fetchPhase2_loaded_other (genTicks : Vector2 → List ScheduledTick)
    (storage : Vector2 → LoadedData) (st : FetchSt) (cs : List Vector2) (x : Vector2)
    (hne : ∀ y ∈ cs, dCoord (storage y) ≠ x) :
    alookup x (fetchPhase2 genTicks storage st cs).loaded = alookup x st.loaded := by
  induction cs generalizing st with
  | nil => rfl
  | cons c rest ih =>
    show alookup x (fetchPhase2 genTicks storage
      (handleLoadResult genTicks st (storage c)) rest).loaded = _
    rw [ih _ fun y hy => hne y (List.mem_cons_of_mem _ hy)]
    exact handleLoadResult_loaded_other genTicks st (storage c) x
      (hne c (List.mem_cons_self _ _))

theorem fetchPhase2_mem (genTicks : Vector2 → List ScheduledTick)
    (storage : Vector2 → LoadedData) (st : FetchSt) (cs : List Vector2) (c : Vector2)
    (hc : c ∈ cs) :
    ∃ h, (dCoord (storage c), h, dIsGen (storage c)) ∈
      (fetchPhase2 genTicks storage st cs).out := by
  induction cs generalizing st with
  | nil => cases hc
  | cons c2 rest ih =>
    rcases List.mem_cons.mp hc with heq | hmem
    · subst heq
      rcases handleLoadResult_out genTicks st (storage c) with ⟨h, hh⟩
      rcases fetchPhase2_out_append genTicks storage
        (handleLoadResult genTicks st (storage c)) rest with ⟨e, he⟩
      refine ⟨h, ?_⟩
      show _ ∈ (fetchPhase2 genTicks storage (handleLoadResult genTicks st (storage c)) rest).out
      rw [he, hh]
      simp
    · exact ih _ hmem

theorem fetchPhase1_cons (spawn : List (Vector2 × SyncChunk)) (st : FetchSt) (c : Vector2)
    (rest : List Vector2) :
    fetchPhase1 spawn st (c :: rest) =
      match alookup c st.loaded with
      | some h => fetchPhase1 spawn { st with out := st.out ++ [(c, h, false)] } rest
      | none =>
        match alookup c spawn with
        | some h =>
          fetchPhase1 spawn
            { st with loaded := aupdate c h st.loaded, out := st.out ++ [(c, h, false)] } rest
        | none => ((fetchPhase1 spawn st rest).1, c :: (fetchPhase1 spawn st rest).2) := rfl

theorem fetchPhase1_coords_perm (spawn : List (Vector2 × SyncChunk)) (st : FetchSt)
    (cs : List Vector2) :
    (((fetchPhase1 spawn st cs).1.out.map fun e => e.1) ++ (fetchPhase1 spawn st cs).2).Perm
      ((st.out.map fun e => e.1) ++ cs) := by
  induction cs generalizing st with
  | nil => simp [fetchPhase1]
  | cons c rest ih =>
    rw [fetchPhase1_cons]
    match hl : alookup c st.loaded with
    | some h =>
      dsimp only
      refine (ih _).trans ?_
      simp only [List.map_append, List.append_assoc]
      exact List.Perm.refl _
    | none =>
      match hs : alookup c spawn with
      | some h =>
        dsimp only
        refine (ih _).trans ?_
        simp only [List.map_append, List.append_assoc]
        exact List.Perm.refl _
      | none =>
        dsimp only
        refine List.perm_middle.trans ?_
        refine ((ih st).cons c).trans ?_
        exact List.perm_middle.symm

theorem fetchPhase1_out_append (spawn : List (Vector2 × SyncChunk)) (st : FetchSt)
    (cs : List Vector2) :
    ∃ e, (fetchPhase1 spawn st cs).1.out = st.out ++ e := by
  induction cs generalizing st with
  | nil => exact ⟨[], by simp [fetchPhase1]⟩
  | cons c rest ih =>
    rw [fetchPhase1_cons]
    match hl : alookup c st.loaded with
    | some h =>
      dsimp only
      rcases ih { st with out := st.out ++ [(c, h, false)] } with ⟨e, he⟩
      exact ⟨(c, h, false) :: e, by rw [he]; simp⟩
    | none =>
      match hs : alookup c spawn with
      | some h =>
        dsimp only
        rcases ih { st with loaded := aupdate c h st.loaded, out := st.out ++ [(c, h, false)] }
          with ⟨e, he⟩
        exact ⟨(c, h, false) :: e, by rw [he]; simp⟩
      | none =>
        dsimp only
        exact ih st

theorem fetchPhase1_loaded_notmem (spawn : List (Vector2 × SyncChunk)) (st : FetchSt)
    (cs : List Vector2) (x : Vector2) (hx : x ∉ cs) :
    alookup x (fetchPhase1 spawn st cs).1.loaded = alookup x st.loaded := by
  induction cs generalizing st with
  | nil => rfl
  | cons c rest ih =>
    have hxc : x ≠ c := fun h => hx (h ▸ List.mem_cons_self c rest)
    have hxr : x ∉ rest := fun h => hx (List.mem_cons_of_mem _ h)
    rw [fetchPhase1_cons]
    match hl : alookup c st.loaded with
    | some h =>
      dsimp only
      rw [ih _ hxr]
    | none =>
      match hs : alookup c spawn with
      | some h =>
        dsimp only
        rw [ih _ hxr]
        exact alookup_aupdate_other _ _ fun hh => hxc hh.symm
      | none =>
        dsimp only
        exact ih st hxr

theorem fetchPhase1_loaded_spawnhit (spawn : List (Vector2 × SyncChunk)) (st : FetchSt)
    (cs : List Vector2) (x : Vector2) (h : SyncChunk) (hnd : cs.Nodup) (hx : x ∈ cs)
    (hl0 : alookup x st.loaded = none) (hs0 : alookup x spawn = some h) :
    alookup x (fetchPhase1 spawn st cs).1.loaded = some h := by
  induction cs generalizing st with
  | nil => cases hx
  | cons c rest ih =>
    have hnotmem : c ∉ rest := (List.nodup_cons.mp hnd).1
    have hnd2 : rest.Nodup := (List.nodup_cons.mp hnd).2
    rw [fetchPhase1_cons]
    by_cases heq : x = c
    · subst heq
      rw [hl0, hs0]
      dsimp only
      rw [fetchPhase1_loaded_notmem spawn _ rest x hnotmem]
      exact alookup_aupdate_self x h _
    · have hmem : x ∈ rest := (List.mem_cons.mp hx).resolve_left heq
      have hcx : c ≠ x := fun hh => heq hh.symm
      match hl : alookup c st.loaded with
      | some h2 =>
        dsimp only
        exact ih _ hnd2 hmem hl0
      | none =>
        match hs : alookup c spawn with
        | some h2 =>
          dsimp only
          refine ih _ hnd2 hmem ?_
          rw [alookup_aupdate_other _ _ hcx]
          exact hl0
        | none =>
          dsimp only
          exact ih _ hnd2 hmem hl0

theorem fetchPhase1_rem_mem (spawn : List (Vector2 × SyncChunk)) (st : FetchSt)
    (cs : List Vector2) (x : Vector2) (hx : x ∈ cs)
    (hl0 : alookup x st.loaded = none) (hs0 : alookup x spawn = none) :
    x ∈ (fetchPhase1 spawn st cs).2 := by
  induction cs generalizing st with
  | nil => cases hx
  | cons c rest ih =>
    rw [fetchPhase1_cons]
    by_cases heq : x = c
    · subst heq
      rw [hl0, hs0]
      dsimp only
      exact List.mem_cons_self _ _
    · have hmem : x ∈ rest := (List.mem_cons.mp hx).resolve_left heq
      have hcx : c ≠ x := fun hh => heq hh.symm
      match hl : alookup c st.loaded with
      | some h2 =>
        dsimp only
        exact ih _ hmem hl0
      | none =>
        match hs : alookup c spawn with
        | some h2 =>
          dsimp only
          refine ih _ hmem ?_
          rw [alookup_aupdate_other _ _ hcx]
          exact hl0
        | none =>
          dsimp only
          exact List.mem_cons_of_mem _ (ih _ hmem hl0)

theorem fetchPhase1_rem_spawn_none (spawn : List (Vector2 × SyncChunk)) (st : FetchSt)
    (cs : List Vector2) (x : Vector2) (hx : x ∈ (fetchPhase1 spawn st cs).2) :
    alookup x spawn = none := by
  induction cs generalizing st with
  | nil => simp [fetchPhase1] at hx
  | cons c rest ih =>
    rw [fetchPhase1_cons] at hx
    cases hl : alookup c st.loaded with
    | some h =>
      rw [hl] at hx
      exact ih _ hx
    | none =>
      rw [hl] at hx
      cases hs : alookup c spawn with
      | some h =>
        rw [hs] at hx
        exact ih _ hx
      | none =>
        rw [hs] at hx
        dsimp only at hx
        rcases List.mem_cons.mp hx with heq | hmem
        · rw [heq]
          exact hs
        · exact ih _ hmem

theorem fetchPhase1_out_spawnhit (spawn : List (Vector2 × SyncChunk)) (st : FetchSt)
    (cs : List Vector2) (x : Vector2) (h : SyncChunk) (hx : x ∈ cs)
    (hl0 : alookup x st.loaded = none) (hs0 : alookup x spawn = some h) :
    (x, h, false) ∈ (fetchPhase1 spawn st cs).1.out := by
  induction cs generalizing st with
  | nil => cases hx
  | cons c rest ih =>
    rw [fetchPhase1_cons]
    by_cases heq : x = c
    · subst heq
      rw [hl0, hs0]
      dsimp only
      rcases fetchPhase1_out_append spawn
        { st with loaded := aupdate x h st.loaded, out := st.out ++ [(x, h, false)] } rest
        with ⟨e, he⟩
      rw [he]
      simp
    · have hmem : x ∈ rest := (List.mem_cons.mp hx).resolve_left heq
      have hcx : c ≠ x := fun hh => heq hh.symm
      match hl : alookup c st.loaded with
      | some h2 =>
        dsimp only
        exact ih _ hmem hl0
      | none =>
        match hs : alookup c spawn with
        | some h2 =>
          dsimp only
          refine ih _ hmem ?_
          rw [alookup_aupdate_other _ _ hcx]
          exact hl0
        | none =>
          dsimp only
          exact ih _ hmem hl0

theorem fetch_chunks_eq (genTicks : Vector2 → List ScheduledTick)
    (spawn : List (Vector2 × SyncChunk)) (storage : Vector2 → LoadedData)
    (loaded0 : List (Vector2 × SyncChunk)) (ticks0 : List ScheduledTick) (nid0 : Nat)
    (chunks : List Vector2) :
    fetch_chunks genTicks spawn storage loaded0 ticks0 nid0 chunks =
      if chunks.isEmpty then ⟨loaded0, ticks0, nid0, [], []⟩
      else if (fetchPhase1 spawn ⟨loaded0, ticks0, nid0, [], []⟩ chunks).2.isEmpty
        then (fetchPhase1 spawn ⟨loaded0, ticks0, nid0, [], []⟩ chunks).1
        else fetchPhase2 genTicks storage
          (fetchPhase1 spawn ⟨loaded0, ticks0, nid0, [], []⟩ chunks).1
          (fetchPhase1 spawn ⟨loaded0, ticks0, nid0, [], []⟩ chunks).2 := rfl

theorem count_map_fst (l : List (Vector2 × SyncChunk × Bool)) (c : Vector2) :
    ((l.map fun e => e.1).count c) = (l.filter fun e => decide (e.1 = c)).length := by
  induction l with
  | nil => rfl
  | cons x xs ih =>
    rw [List.map_cons, List.count_cons, List.filter_cons, ih]
    by_cases h : x.1 = c
    · simp [h]
    · simp [h]

theorem fetch_out_coords_perm (genTicks : Vector2 → List ScheduledTick)
    (spawn : List (Vector2 × SyncChunk)) (storage : Vector2 → LoadedData)
    (loaded0 : List (Vector2 × SyncChunk)) (ticks0 : List ScheduledTick) (nid0 : Nat)
    (chunks : List Vector2) (hsc : storageConsistent storage) :
    ((fetch_chunks genTicks spawn storage loaded0 ticks0 nid0 chunks).out.map
      fun e => e.1).Perm chunks := by
  rw [fetch_chunks_eq]
  by_cases hemp : chunks.isEmpty
  · rw [if_pos hemp, List.isEmpty_iff.mp hemp]
    exact List.Perm.refl _
  · rw [if_neg hemp]
    have hp1 := fetchPhase1_coords_perm spawn ⟨loaded0, ticks0, nid0, [], []⟩ chunks
    by_cases hrem : (fetchPhase1 spawn ⟨loaded0, ticks0, nid0, [], []⟩ chunks).2.isEmpty
    · rw [if_pos hrem]
      rw [List.isEmpty_iff.mp hrem, List.append_nil] at hp1
      exact hp1
    · rw [if_neg hrem]
      rw [fetchPhase2_coords genTicks storage hsc]
      exact hp1

/-- C2: within one `fetch_chunks` call over distinct coordinates and a
storage backend honouring its per-coordinate contract, the coordinates of the
channel emissions are a permutation of the requested coordinates — exactly
one `(handle, was_freshly_generated)` pair is sent per requested coordinate
(conjuncts 1 and 2) — and an empty input returns immediately having sent
nothing (conjunct 3). -/
theorem c2_fetch_exactly_one_emission_per_coordinate
    (genTicks : Vector2 → List ScheduledTick) (spawn : List (Vector2 × SyncChunk))
    (storage : Vector2 → LoadedData) (loaded0 : List (Vector2 × SyncChunk))
    (ticks0 : List ScheduledTick) (nid0 : Nat) (chunks : List Vector2)
    (hnd : chunks.Nodup) (hsc : storageConsistent storage) :
    (((fetch_chunks genTicks spawn storage loaded0 ticks0 nid0 chunks).out.map
        fun e => e.1).Perm chunks)
    ∧ (∀ c ∈ chunks,
        ((fetch_chunks genTicks spawn storage loaded0 ticks0 nid0 chunks).out.filter
          fun e => decide (e.1 = c)).length = 1)
    ∧ (fetch_chunks genTicks spawn storage loaded0 ticks0 nid0 []).out = [] := by
  have hperm := fetch_out_coords_perm genTicks spawn storage loaded0 ticks0 nid0 chunks hsc
  refine ⟨hperm, fun c hc => ?_, rfl⟩
  rw [← count_map_fst, hperm.count_eq c]
  exact List.count_eq_one_of_mem hnd hc

/-- Concrete storage oracle for the fetch witnesses: every coordinate is
reported missing. -/
def storageAllMissing : Vector2 → LoadedData := fun c => LoadedData.Missing c

theorem storageAllMissing_consistent : storageConsistent storageAllMissing := fun _ => rfl

/-- Witness for C2 at a concrete input. -/
theorem c2_witness :
    (((fetch_chunks (fun _ => []) [] storageAllMissing [] [] 0
        [⟨0, 0⟩, ⟨1, 0⟩]).out.map fun e => e.1).Perm [⟨0, 0⟩, ⟨1, 0⟩])
    ∧ (∀ c ∈ [(⟨0, 0⟩ : Vector2), ⟨1, 0⟩],
        ((fetch_chunks (fun _ => []) [] storageAllMissing [] [] 0
          [⟨0, 0⟩, ⟨1, 0⟩]).out.filter fun e => decide (e.1 = c)).length = 1)
    ∧ (fetch_chunks (fun _ => []) [] storageAllMissing [] [] 0 []).out = [] :=
  c2_fetch_exactly_one_emission_per_coordinate (fun _ => []) [] storageAllMissing [] [] 0
    [⟨0, 0⟩, ⟨1, 0⟩] (by decide) storageAllMissing_consistent

theorem fetch_filter_singleton (genTicks : Vector2 → List ScheduledTick)
    (spawn : List (Vector2 × SyncChunk)) (storage : Vector2 → LoadedData)
    (loaded0 : List (Vector2 × SyncChunk)) (ticks0 : List ScheduledTick) (nid0 : Nat)
    (chunks : List Vector2) (c : Vector2) (y : Vector2 × SyncChunk × Bool)
    (hnd : chunks.Nodup) (hsc : storageConsistent storage) (hc : c ∈ chunks)
    (hy1 : y.1 = c)
    (hmem : y ∈ (fetch_chunks genTicks spawn storage loaded0 ticks0 nid0 chunks).out) :
    (fetch_chunks genTicks spawn storage loaded0 ticks0 nid0 chunks).out.filter
      (fun e => decide (e.1 = c)) = [y] := by
  have hperm := fetch_out_coords_perm genTicks spawn storage loaded0 ticks0 nid0 chunks hsc
  have hlen : ((fetch_chunks genTicks spawn storage loaded0 ticks0 nid0 chunks).out.filter
      (fun e => decide (e.1 = c))).length = 1 := by
    rw [← count_map_fst, hperm.count_eq c]
    exact List.count_eq_one_of_mem hnd hc
  rcases List.length_eq_one.mp hlen with ⟨a, ha⟩
  have hymem : y ∈ (fetch_chunks genTicks spawn storage loaded0 ticks0 nid0 chunks).out.filter
      (fun e => decide (e.1 = c)) :=
    List.mem_filter.mpr ⟨hmem, by simp [hy1]⟩
  rw [ha] at hymem ⊢
  rcases List.mem_singleton.mp hymem with rfl
  rfl

/-- C5: a per-coordinate storage result of `Missing`, or of `Error` with any
cause (the recognized not-yet-generated errors silently, any other error
after logging), makes `fetch_chunks` forward the coordinate to the
generator: the coordinate still yields exactly one chunk emission, sent with
`was_freshly_generated = true`, and no storage error reaches the caller —
the only thing observable on the channel for that coordinate is a chunk. -/
theorem c5_storage_errors_fall_back_to_generation
    (genTicks : Vector2 → List ScheduledTick) (spawn : List (Vector2 × SyncChunk))
    (storage : Vector2 → LoadedData) (loaded0 : List (Vector2 × SyncChunk))
    (ticks0 : List ScheduledTick) (nid0 : Nat) (chunks : List Vector2) (c : Vector2)
    (hnd : chunks.Nodup) (hsc : storageConsistent storage) (hc : c ∈ chunks)
    (hl0 : alookup c loaded0 = none) (hs0 : alookup c spawn = none)
    (herr : storage c = LoadedData.Missing c ∨
      ∃ e, storage c = LoadedData.Error c e) :
    ∃ h, (fetch_chunks genTicks spawn storage loaded0 ticks0 nid0 chunks).out.filter
      (fun e => decide (e.1 = c)) = [(c, h, true)] := by
  have hemp : ¬ chunks.isEmpty = true := by
    simp only [List.isEmpty_iff]
    exact List.ne_nil_of_mem hc
  have hrem : c ∈ (fetchPhase1 spawn ⟨loaded0, ticks0, nid0, [], []⟩ chunks).2 :=
    fetchPhase1_rem_mem spawn _ chunks c hc hl0 hs0
  have hremne : ¬ (fetchPhase1 spawn ⟨loaded0, ticks0, nid0, [], []⟩ chunks).2.isEmpty = true := by
    simp only [List.isEmpty_iff]
    exact List.ne_nil_of_mem hrem
  have hfc : fetch_chunks genTicks spawn storage loaded0 ticks0 nid0 chunks =
      fetchPhase2 genTicks storage
        (fetchPhase1 spawn ⟨loaded0, ticks0, nid0, [], []⟩ chunks).1
        (fetchPhase1 spawn ⟨loaded0, ticks0, nid0, [], []⟩ chunks).2 := by
    rw [fetch_chunks_eq, if_neg hemp, if_neg hremne]
  rcases fetchPhase2_mem genTicks storage
      (fetchPhase1 spawn ⟨loaded0, ticks0, nid0, [], []⟩ chunks).1
      (fetchPhase1 spawn ⟨loaded0, ticks0, nid0, [], []⟩ chunks).2 c hrem with ⟨h, hmem⟩
  have hmem2 : (c, h, true) ∈
      (fetch_chunks genTicks spawn storage loaded0 ticks0 nid0 chunks).out := by
    rw [hfc]
    rcases herr with hm | ⟨e, he⟩
    · rw [hm] at hmem
      exact hmem
    · rw [he] at hmem
      exact hmem
  exact ⟨h, fetch_filter_singleton genTicks spawn storage loaded0 ticks0 nid0 chunks c
    (c, h, true) hnd hsc hc rfl hmem2⟩

/-- Witness for C5 at a concrete input: a never-seen coordinate whose storage
result is an unrecognized error is regenerated and emitted with flag
`true`. -/
theorem c5_witness :
    ∃ h, (fetch_chunks (fun _ => []) []
      (fun c => LoadedData.Error c ChunkReadingError.OtherError) [] [] 0
      [⟨0, 0⟩]).out.filter (fun e => decide (e.1 = (⟨0, 0⟩ : Vector2))) = [(⟨0, 0⟩, h, true)] :=
  c5_storage_errors_fall_back_to_generation (fun _ => []) []
    (fun c => LoadedData.Error c ChunkReadingError.OtherError) [] [] 0 [⟨0, 0⟩] ⟨0, 0⟩
    (by decide) (fun _ => rfl) (by decide) rfl rfl
    (Or.inr ⟨ChunkReadingError.OtherError, rfl⟩)

/-- C10: a coordinate resident in the always-loaded spawn-chunk map (and not
in the main cache) is served by `fetch_chunks` from memory: its spawn handle
is emitted as the coordinate's unique emission with
`was_freshly_generated = false`, the same handle is inserted into the main
chunk cache, and the coordinate is not in the remaining list handed to the
storage backend — no storage read and no generation happen for it. -/
theorem c10_spawn_chunk_served_from_memory
    (genTicks : Vector2 → List ScheduledTick) (spawn : List (Vector2 × SyncChunk))
    (storage : Vector2 → LoadedData) (loaded0 : List (Vector2 × SyncChunk))
    (ticks0 : List ScheduledTick) (nid0 : Nat) (chunks : List Vector2) (c : Vector2)
    (h : SyncChunk) (hnd : chunks.Nodup) (hsc : storageConsistent storage)
    (hc : c ∈ chunks) (hl0 : alookup c loaded0 = none) (hs0 : alookup c spawn = some h) :
    ((fetch_chunks genTicks spawn storage loaded0 ticks0 nid0 chunks).out.filter
      (fun e => decide (e.1 = c)) = [(c, h, false)])
    ∧ alookup c (fetch_chunks genTicks spawn storage loaded0 ticks0 nid0 chunks).loaded =
        some h
    ∧ c ∉ (fetchPhase1 spawn ⟨loaded0, ticks0, nid0, [], []⟩ chunks).2 := by
  have hemp : ¬ chunks.isEmpty = true := by
    simp only [List.isEmpty_iff]
    exact List.ne_nil_of_mem hc
  have hnotrem : c ∉ (fetchPhase1 spawn ⟨loaded0, ticks0, nid0, [], []⟩ chunks).2 := by
    intro hmem
    rw [fetchPhase1_rem_spawn_none spawn _ chunks c hmem] at hs0
    cases hs0
  have hout1 : (c, h, false) ∈
      (fetchPhase1 spawn ⟨loaded0, ticks0, nid0, [], []⟩ chunks).1.out :=
    fetchPhase1_out_spawnhit spawn _ chunks c h hc hl0 hs0
  have hload1 : alookup c (fetchPhase1 spawn ⟨loaded0, ticks0, nid0, [], []⟩ chunks).1.loaded =
      some h :=
    fetchPhase1_loaded_spawnhit spawn _ chunks c h hnd hc hl0 hs0
  rw [fetch_chunks_eq, if_neg hemp]
  by_cases hrem : (fetchPhase1 spawn ⟨loaded0, ticks0, nid0, [], []⟩ chunks).2.isEmpty = true
  · rw [if_pos hrem]
    refine ⟨?_, hload1, hnotrem⟩
    have hsingle : (fetch_chunks genTicks spawn storage loaded0 ticks0 nid0 chunks).out.filter
        (fun e => decide (e.1 = c)) = [(c, h, false)] := by
      refine fetch_filter_singleton genTicks spawn storage loaded0 ticks0 nid0 chunks c
        (c, h, false) hnd hsc hc rfl ?_
      rw [fetch_chunks_eq, if_neg hemp, if_pos hrem]
      exact hout1
    rw [fetch_chunks_eq, if_neg hemp, if_pos hrem] at hsingle
    exact hsingle
  · rw [if_neg hrem]
    have hother : ∀ y ∈ (fetchPhase1 spawn ⟨loaded0, ticks0, nid0, [], []⟩ chunks).2,
        dCoord (storage y) ≠ c := by
      intro y hy heq
      rw [hsc y] at heq
      exact hnotrem (heq ▸ hy)
    refine ⟨?_, ?_, hnotrem⟩
    · have hsingle : (fetch_chunks genTicks spawn storage loaded0 ticks0 nid0 chunks).out.filter
          (fun e => decide (e.1 = c)) = [(c, h, false)] := by
        refine fetch_filter_singleton genTicks spawn storage loaded0 ticks0 nid0 chunks c
          (c, h, false) hnd hsc hc rfl ?_
        rw [fetch_chunks_eq, if_neg hemp, if_neg hrem]
        rcases fetchPhase2_out_append genTicks storage
          (fetchPhase1 spawn ⟨loaded0, ticks0, nid0, [], []⟩ chunks).1
          (fetchPhase1 spawn ⟨loaded0, ticks0, nid0, [], []⟩ chunks).2 with ⟨e, he⟩
        rw [he]
        exact List.mem_append_left _ hout1
      rw [fetch_chunks_eq, if_neg hemp, if_neg hrem] at hsingle
      exact hsingle
    · rw [fetchPhase2_loaded_other genTicks storage _ _ c hother]
      exact hload1

/-- Concrete spawn map for the C10 witness. -/
def spawn10 : List (Vector2 × SyncChunk) := [(⟨0, 0⟩, ⟨7, ⟨0, 0⟩, []⟩)]

/-- Witness for C10 at a concrete input. -/
theorem c10_witness :
    ((fetch_chunks (fun _ => []) spawn10 storageAllMissing [] [] 0
      [⟨0, 0⟩]).out.filter (fun e => decide (e.1 = (⟨0, 0⟩ : Vector2))) =
        [(⟨0, 0⟩, ⟨7, ⟨0, 0⟩, []⟩, false)])
    ∧ alookup (⟨0, 0⟩ : Vector2)
        (fetch_chunks (fun _ => []) spawn10 storageAllMissing [] [] 0 [⟨0, 0⟩]).loaded =
        some ⟨7, ⟨0, 0⟩, []⟩
    ∧ (⟨0, 0⟩ : Vector2) ∉ (fetchPhase1 spawn10 ⟨[], [], 0, [], []⟩ [⟨0, 0⟩]).2 :=
  c10_spawn_chunk_served_from_memory (fun _ => []) spawn10 storageAllMissing [] [] 0
    [⟨0, 0⟩] ⟨0, 0⟩ ⟨7, ⟨0, 0⟩, []⟩ (by decide) storageAllMissing_consistent
    (by decide) rfl (by decide)

/-! ### C1: concurrent dedup through the atomic entry lock -/

/-- Cache-and-generator state for the dedup analysis: the chunk map, the
fresh-`Arc` id counter, and a ghost count of generator invocations for the
requested coordinate. -/
structure CacheSt where
  map : List (Vector2 × SyncChunk)
  nextId : Nat
  genCount : Nat
deriving DecidableEq, Repr

/-- One fetch task's atomic resolution step for a generation-path coordinate:
`loaded_chunks.entry(pos).or_insert_with(|| Arc::new(RwLock::new(world_gen.generate_chunk(pos))))`.
The generation closure runs inside the dashmap entry lock ("Avoid possible
duplicating work by doing this within the dashmap lock"), so the whole step
is atomic: any interleaving of two concurrent such steps is one of the two
sequential orders, and the two tasks' steps are the identical operation, so
both orders are the same composite function. -/
def genStep (genTicks : Vector2 → List ScheduledTick) (st : CacheSt) (pos : Vector2) :
    SyncChunk × CacheSt :=
  match alookup pos st.map with
  | some h => (h, st)
  | none =>
    (⟨st.nextId, pos, genTicks pos⟩,
      ⟨aupdate pos ⟨st.nextId, pos, genTicks pos⟩ st.map, st.nextId + 1, st.genCount + 1⟩)

/-- One fetch task's atomic resolution step for a load-path result:
`loaded_chunks.entry(position).or_insert(chunk)`, `chunk` being the instance
that task read from storage. -/
def loadStep (st : CacheSt) (pos : Vector2) (chunk : SyncChunk) : SyncChunk × CacheSt :=
  match alookup pos st.map with
  | some h => (h, st)
  | none => (chunk, ⟨aupdate pos chunk st.map, st.nextId, st.genCount⟩)

/-- C1: for a coordinate not yet cache-resident, two concurrent requests
racing through the cache's atomic insert-if-absent resolve to the same
shared chunk handle instance.  On the generation path the generator runs
exactly once for the coordinate — the second step finds the entry and does
not invoke it (conjuncts 1–2); on the load path both requests resolve to the
first inserted instance, the second task's chunk is discarded rather than
inserted, and no generation happens (conjuncts 3–5). -/
theorem c1_concurrent_fetch_dedup (genTicks : Vector2 → List ScheduledTick) (st : CacheSt)
    (pos : Vector2) (ch1 ch2 : SyncChunk) (hfresh : alookup pos st.map = none) :
    ((genStep genTicks st pos).1 = (genStep genTicks (genStep genTicks st pos).2 pos).1
    ∧ (genStep genTicks (genStep genTicks st pos).2 pos).2.genCount = st.genCount + 1)
    ∧ ((loadStep st pos ch1).1 = (loadStep (loadStep st pos ch1).2 pos ch2).1
    ∧ (loadStep (loadStep st pos ch1).2 pos ch2).2.map = aupdate pos ch1 st.map
    ∧ (loadStep (loadStep st pos ch1).2 pos ch2).2.genCount = st.genCount) := by
  constructor
  · constructor
    · simp [genStep, hfresh, alookup_aupdate_self]
    · simp [genStep, hfresh, alookup_aupdate_self]
  · refine ⟨?_, ?_, ?_⟩
    · simp [loadStep, hfresh, alookup_aupdate_self]
    · simp [loadStep, hfresh, alookup_aupdate_self]
    · simp [loadStep, hfresh, alookup_aupdate_self]

/-- Witness for C1 at a concrete input. -/
theorem c1_witness :
    ((genStep (fun _ => []) ⟨[], 0, 0⟩ ⟨0, 0⟩).1 =
      (genStep (fun _ => []) (genStep (fun _ => []) ⟨[], 0, 0⟩ ⟨0, 0⟩).2 ⟨0, 0⟩).1
    ∧ (genStep (fun _ => []) (genStep (fun _ => []) ⟨[], 0, 0⟩ ⟨0, 0⟩).2 ⟨0, 0⟩).2.genCount =
        (0 : Nat) + 1)
    ∧ ((loadStep ⟨[], 0, 0⟩ ⟨0, 0⟩ ⟨5, ⟨0, 0⟩, []⟩).1 =
      (loadStep (loadStep ⟨[], 0, 0⟩ ⟨0, 0⟩ ⟨5, ⟨0, 0⟩, []⟩).2 ⟨0, 0⟩ ⟨6, ⟨0, 0⟩, []⟩).1
    ∧ (loadStep (loadStep ⟨[], 0, 0⟩ ⟨0, 0⟩ ⟨5, ⟨0, 0⟩, []⟩).2 ⟨0, 0⟩ ⟨6, ⟨0, 0⟩, []⟩).2.map =
        aupdate ⟨0, 0⟩ ⟨5, ⟨0, 0⟩, []⟩ []
    ∧ (loadStep (loadStep ⟨[], 0, 0⟩ ⟨0, 0⟩ ⟨5, ⟨0, 0⟩, []⟩).2 ⟨0, 0⟩
        ⟨6, ⟨0, 0⟩, []⟩).2.genCount = (0 : Nat)) :=
  c1_concurrent_fetch_dedup (fun _ => []) ⟨[], 0, 0⟩ ⟨0, 0⟩ ⟨5, ⟨0, 0⟩, []⟩ ⟨6, ⟨0, 0⟩, []⟩ rfl

end Pumpkin
